import Mathlib

/-! # Byte dumper (`my_prdump`) of `src/main.cpp`

A shallow embedding of the generic memory dump routine `my_prdump` and of the
part of the `std::ostream` formatting machinery it drives.

The output stream is modelled as an explicit state: the characters written so
far together with the three pieces of formatting state the routine touches
(fill character, numeric base, pending field width).  Every `<<` of the source
becomes one state transformer, applied in source order.  The remaining format
flags (`showbase`, `uppercase`, `left`/`internal` adjustment) are never set
anywhere in the program and are taken at their defaults: no base marker,
lowercase digits, padding on the left.

The inspected value enters as its object representation: the list of the
`sizeof(T)` bytes that `reinterpret_cast<uint8_t const *>(&s)` exposes, and
the address `sp` those bytes live at.
-/

namespace Dump

/-! ## The output stream -/

/-- Numeric base of a stream (`std::dec`, `std::hex`, `std::oct`). -/
inductive Radix where
  | dec
  | hex
  | oct
deriving DecidableEq, Repr

/-- The number a base flag stands for. -/
def Radix.value : Radix → Nat
  | .dec => 10
  | .hex => 16
  | .oct => 8

/-- An output stream: the text written so far and the formatting state. -/
structure OStream where
  out : List Char
  fill : Char
  radix : Radix
  width : Nat
deriving DecidableEq, Repr

/-- Padding of a field to `w` columns: the fill characters go in front. -/
def padLeft (w : Nat) (c : Char) (text : List Char) : List Char :=
  List.replicate (w - text.length) c ++ text

/-- A formatted insertion: the text is padded to the pending width, and the
width is reset to zero. -/
def OStream.insert (os : OStream) (text : List Char) : OStream :=
  ⟨os.out ++ padLeft os.width os.fill text, os.fill, os.radix, 0⟩

/-- Insertion of a character, `os << c`. -/
def put_char (c : Char) (os : OStream) : OStream :=
  os.insert [c]

/-- Insertion of a string, `os << str`. -/
def put_str (str : List Char) (os : OStream) : OStream :=
  os.insert str

/-- Insertion of an unsigned integer, `os << n`, in the stream's base. -/
def put_uint (n : Nat) (os : OStream) : OStream :=
  os.insert (Nat.toDigits os.radix.value n)

/-- Insertion of a pointer, `os << p`: libstdc++ prints it in hexadecimal with
the base marker, whatever the base flag of the stream is. -/
def put_ptr (p : Nat) (os : OStream) : OStream :=
  os.insert (if p = 0 then ['0'] else '0' :: 'x' :: Nat.toDigits 16 p)

/-- The manipulator `std::setw(n)`. -/
def setw (n : Nat) (os : OStream) : OStream :=
  ⟨os.out, os.fill, os.radix, n⟩

/-- The manipulator `std::setfill(c)`. -/
def setfill (c : Char) (os : OStream) : OStream :=
  ⟨os.out, c, os.radix, os.width⟩

/-- The manipulator `std::dec`. -/
def dec (os : OStream) : OStream :=
  ⟨os.out, os.fill, Radix.dec, os.width⟩

/-- The manipulator `std::hex`. -/
def hex (os : OStream) : OStream :=
  ⟨os.out, os.fill, Radix.hex, os.width⟩

/-- The manipulator `std::oct`. -/
def oct (os : OStream) : OStream :=
  ⟨os.out, os.fill, Radix.oct, os.width⟩

/-- The manipulator `std::endl`: an unformatted `put` of a newline (no padding,
the pending width is left alone) followed by a flush. -/
def endl (os : OStream) : OStream :=
  ⟨os.out ++ ['\n'], os.fill, os.radix, os.width⟩

/-! ## Library pieces used by the loop body -/

/-- The classification `std::isprint` in the "C" locale, the only locale the
program runs in. -/
def isprint (c : Nat) : Bool :=
  decide (0x20 ≤ c) && decide (c ≤ 0x7E)

/-- The constructor `std::bitset<8>(v)`: bit `i` of the set is bit `i` of `v`. -/
def bitset8 (v : Nat) : List Bool :=
  (List.range 8).map (Nat.testBit v)

/-- The text of a bitset (`to_string`, used by its `<<`): the highest position
comes first. -/
def bitset_to_string (bits : List Bool) : List Char :=
  bits.reverse.map (fun b => if b then '1' else '0')

/-- Insertion of a bitset, `os << bbyte`: its text goes out as a string. -/
def put_bitset (bits : List Bool) (os : OStream) : OStream :=
  os.insert (bitset_to_string bits)

/-! ## `my_prdump` -/

/-- The three heading lines of `my_prdump` (source lines 354 to 366): the blank
line and title line with the size, the address line and the column titles. -/
def prdump_header (sp : Nat) (size : Nat) (title : String) (os : OStream) : OStream :=
  os
    |> put_char '\n' |> put_str title.toList
    |> put_str " - Size: ".toList |> dec |> setw 6
    |> put_uint size
    |> put_str " [".toList
    |> setw 8 |> setfill '0' |> hex
    |> put_uint size
    |> put_str "]".toList
    |> endl
    |> put_str "Dump address: ".toList
    |> put_ptr sp
    |> endl
    |> put_str "Offset: Hex - Dec - Oct - Bin      - Char".toList
    |> endl

/-- The output statement of the loop body (source lines 370 to 388) for the
byte `ibyte` at the current value of the counter `offset`; both are printed
as `uint16_t`. -/
def prdump_byte (offset ibyte : Nat) (os : OStream) : OStream :=
  let bbyte := bitset8 ibyte
  os
    |> put_str "  ".toList
    |> hex |> setw 4 |> setfill '0'
    |> put_uint offset |> put_str ": ".toList
    |> hex |> setw 2 |> setfill '0'
    |> put_uint (ibyte % 65536)
    |> put_str "  - ".toList
    |> dec |> setw 3 |> setfill ' '
    |> put_uint (ibyte % 65536)
    |> put_str " - ".toList
    |> oct |> setw 3 |> setfill '0'
    |> put_uint (ibyte % 65536)
    |> put_str " - ".toList
    |> hex |> setw 8 |> setfill ' '
    |> put_bitset bbyte
    |> put_str " - ".toList
    |> dec |> setw 1 |> setfill ' '
    |> put_char (if isprint ibyte then Char.ofNat ibyte else '.')
    |> put_char '\n'

/-- The loop of `my_prdump` (source lines 367 to 389) over the bytes still to
be read.  `offset` is the `uint16_t` counter: `offset++` wraps at `2^16`.
Each element is read through a `uint8_t` pointer. -/
def prdump_loop : List Nat → Nat → OStream → OStream
  | [], _, os => os
  | b :: rest, offset, os =>
    let ibyte := b % 256
    prdump_loop rest ((offset + 1) % 65536) (prdump_byte offset ibyte os)

/-- The routine `my_prdump(s, title)` writing to `std::cout`: `s` is the object
representation of the value (its `sizeof(T)` bytes) and `sp` its address. -/
def my_prdump (sp : Nat) (s : List Nat) (title : String) (os : OStream) : OStream :=
  endl (prdump_loop s 0 (prdump_header sp s.length title os))

/-! ## Reading the output -/

/-- The text a step wrote: what the stream holds after it, minus what it held
before. -/
def emitted (before after : OStream) : List Char :=
  after.out.drop before.out.length

/-- A text cut into its lines; every line keeps its newline. -/
def splitLines : List Char → List (List Char)
  | [] => []
  | c :: cs =>
    if c = '\n' then [c] :: splitLines cs
    else
      match splitLines cs with
      | [] => [[c]]
      | l :: ls => (c :: l) :: ls

/-- The record lines of one call of `my_prdump`: the lines its loop writes. -/
def recordLines (sp : Nat) (s : List Nat) (title : String) (os : OStream) :
    List (List Char) :=
  let hs := prdump_header sp s.length title os
  splitLines (emitted hs (prdump_loop s 0 hs))

/-- The whole text one call of `my_prdump` writes. -/
def dumpText (sp : Nat) (s : List Nat) (title : String) (os : OStream) : List Char :=
  emitted os (my_prdump sp s title os)

/-- A stream as `main` finds `std::cout`: nothing written, fill `' '`,
decimal, no pending width. -/
def cout0 : OStream := ⟨[], ' ', Radix.dec, 0⟩

/-- The formatting state `E_sample` (source line 186) and `U_sample` (source
line 266) leave `std::cout` in when they call `my_prdump`: fill `'0'`,
hexadecimal, no pending width. -/
def cout_hex0 : OStream := ⟨[], '0', Radix.hex, 0⟩

/-- The bytes of the union `u` of `U_sample`, `0xf010002080400080` stored
little-endian. -/
def u_bytes : List Nat := [0x80, 0x00, 0x40, 0x80, 0x20, 0x00, 0x10, 0xf0]

/-! ## The documented layout of a record line

The definitions of this section do not come from the code: they write down the
record line as the format description words it, digit by digit, so that the
text the code produces can be compared with it. -/

/-- Documented layout: four hexadecimal digits, zero-padded (the offset field). -/
def hex4 (i : Nat) : List Char :=
  [Nat.digitChar (i / 4096 % 16), Nat.digitChar (i / 256 % 16),
   Nat.digitChar (i / 16 % 16), Nat.digitChar (i % 16)]

/-- Documented layout: two hexadecimal digits, zero-padded. -/
def hex2 (b : Nat) : List Char :=
  [Nat.digitChar (b / 16 % 16), Nat.digitChar (b % 16)]

/-- Documented layout: a decimal numeral right-aligned in three columns, padded
with spaces. -/
def dec3 (b : Nat) : List Char :=
  if b < 10 then [' ', ' ', Nat.digitChar b]
  else if b < 100 then [' ', Nat.digitChar (b / 10), Nat.digitChar (b % 10)]
  else [Nat.digitChar (b / 100 % 10), Nat.digitChar (b / 10 % 10), Nat.digitChar (b % 10)]

/-- Documented layout: three octal digits, zero-padded. -/
def oct3 (b : Nat) : List Char :=
  [Nat.digitChar (b / 64 % 8), Nat.digitChar (b / 8 % 8), Nat.digitChar (b % 8)]

/-- Documented layout: one binary digit, the bit of weight `2^k`. -/
def bitChar (b k : Nat) : Char :=
  if b / 2 ^ k % 2 = 1 then '1' else '0'

/-- Documented layout: eight binary digits, most significant first. -/
def bin8 (b : Nat) : List Char :=
  [bitChar b 7, bitChar b 6, bitChar b 5, bitChar b 4,
   bitChar b 3, bitChar b 2, bitChar b 1, bitChar b 0]

/-- Documented layout: the display character, the byte itself when it is
printable ASCII and a dot otherwise. -/
def char_or_dot (b : Nat) : Char :=
  if 0x20 ≤ b ∧ b ≤ 0x7E then Char.ofNat b else '.'

/-- Documented layout: the record line for byte `b` at offset `i`. -/
def record_line (i b : Nat) : List Char :=
  "  ".toList ++ hex4 i ++ ": ".toList ++ hex2 b ++ "  - ".toList ++ dec3 b
    ++ " - ".toList ++ oct3 b ++ " - ".toList ++ bin8 b ++ " - ".toList
    ++ [char_or_dot b] ++ ['\n']

/-- The value of one digit character (lowercase hexadecimal at most). -/
def digitVal (c : Char) : Nat :=
  if '0' ≤ c ∧ c ≤ '9' then c.toNat - 48
  else if 'a' ≤ c ∧ c ≤ 'f' then c.toNat - 87
  else 0

/-- A numeral read back in the given base. -/
def readNat (base : Nat) (cs : List Char) : Nat :=
  cs.foldl (fun acc c => acc * base + digitVal c) 0

/-- The offset field of a record line: columns 2 to 5. -/
def offsetField (line : List Char) : List Char :=
  (line.drop 2).take 4

/-- The hex field of a record line: columns 8 and 9. -/
def hexField (line : List Char) : List Char :=
  (line.drop 8).take 2

/-- The binary field of a record line: columns 26 to 33. -/
def binField (line : List Char) : List Char :=
  (line.drop 26).take 8

/-- The display character of a record line: column 37. -/
def charField (line : List Char) : Option Char :=
  line.get? 37

/-- The offset a record line shows, read back as a number. -/
def lineOffset (line : List Char) : Nat :=
  readNat 16 (offsetField line)

/-- Closed form of the loop output, used in the proofs: the documented record
lines for the bytes `s`, the counter starting at `offset` and taken modulo
`2^16`, each byte taken modulo `2^8`. -/
def linesFrom : List Nat → Nat → List (List Char)
  | [], _ => []
  | b :: rest, offset =>
    record_line (offset % 65536) (b % 256) :: linesFrom rest (offset + 1)

/-- The object representation of an unsigned integer `v` of `w` bytes stored
in little-endian byte order: the least significant byte comes first. -/
def le_bytes : Nat → Nat → List Nat
  | 0, _ => []
  | w + 1, v => v % 256 :: le_bytes w (v / 256)

/-- Proof device: a digit string of exactly `k` digits in base `b`, leading
zeros kept. -/
def fixedDigits (b : Nat) : Nat → Nat → List Char
  | 0, _ => []
  | k + 1, n => fixedDigits b k (n / b) ++ [Nat.digitChar (n % b)]

/-- Proof device: a documented record line without its newline. -/
def record_body (i b : Nat) : List Char :=
  "  ".toList ++ hex4 i ++ ": ".toList ++ hex2 b ++ "  - ".toList ++ dec3 b
    ++ " - ".toList ++ oct3 b ++ " - ".toList ++ bin8 b ++ " - ".toList
    ++ [char_or_dot b]

/-- Closed form of the heading, used in the proofs: the text of the three
heading lines for a stream entered with the given fill character and pending
width. -/
def headerText (sp size : Nat) (title : String) (fill : Char) (width : Nat) : List Char :=
  padLeft width fill ['\n'] ++ title.toList ++ " - Size: ".toList
    ++ padLeft 6 fill (Nat.toDigits 10 size) ++ " [".toList
    ++ padLeft 8 '0' (Nat.toDigits 16 size) ++ "]".toList ++ ['\n']
    ++ "Dump address: ".toList
    ++ (if sp = 0 then ['0'] else '0' :: 'x' :: Nat.toDigits 16 sp) ++ ['\n']
    ++ "Offset: Hex - Dec - Oct - Bin      - Char".toList ++ ['\n']

/-! ## Number formatting -/

theorem fixedDigits_zero (b : Nat) : ∀ k, fixedDigits b k 0 = List.replicate k '0' := by
  intro k
  induction k with
  | zero => rfl
  | succ k ih =>
    simp only [fixedDigits, Nat.zero_div, Nat.zero_mod, ih]
    rw [List.replicate_succ']
    rfl

theorem toDigitsCore_fixed (b : Nat) (hb : 2 ≤ b) :
    ∀ (k fuel n : Nat) (acc : List Char), n < b ^ k → n < fuel → 0 < k →
      ∃ ds, Nat.toDigitsCore b fuel n acc = ds ++ acc ∧ ds.length ≤ k ∧
        List.replicate (k - ds.length) '0' ++ ds = fixedDigits b k n := by
  intro k
  induction k with
  | zero => intro fuel n acc _ _ hk; exact absurd hk (Nat.lt_irrefl 0)
  | succ k ih =>
    intro fuel n acc hn hfuel _
    obtain ⟨f, rfl⟩ : ∃ f, fuel = f + 1 := ⟨fuel - 1, by omega⟩
    rw [Nat.toDigitsCore]
    by_cases hq : n / b = 0
    · refine ⟨[Nat.digitChar (n % b)], ?_, ?_, ?_⟩
      · simp [hq]
      · simp
      · simp only [fixedDigits, hq, fixedDigits_zero, List.length_singleton,
          Nat.add_sub_cancel]
    · have hnb : b ≤ n := by
        by_contra hlt
        exact hq (Nat.div_eq_of_lt (by omega))
      have hkpos : 0 < k := by
        rcases Nat.eq_zero_or_pos k with h0 | h0
        · subst h0
          simp at hn
          omega
        · exact h0
      have hdiv : n / b < b ^ k := by
        apply Nat.div_lt_of_lt_mul
        rw [← Nat.pow_succ']
        exact hn
      have hlt : n / b < f := by
        have : n / b < n := Nat.div_lt_self (by omega) (by omega)
        omega
      obtain ⟨ds, hds, hlen, hfix⟩ := ih f (n / b) (Nat.digitChar (n % b) :: acc) hdiv hlt hkpos
      refine ⟨ds ++ [Nat.digitChar (n % b)], ?_, ?_, ?_⟩
      · simp [hq, hds]
      · simp; omega
      · simp only [fixedDigits, ← hfix, List.length_append, List.length_singleton,
          Nat.add_sub_add_right, List.append_assoc]

/-- A number below `b ^ k` printed in a zero-filled field of width `k` shows
exactly its `k` digits. -/
theorem padLeft_toDigits (b k n : Nat) (hb : 2 ≤ b) (hk : 0 < k) (hn : n < b ^ k) :
    padLeft k '0' (Nat.toDigits b n) = fixedDigits b k n := by
  obtain ⟨ds, hds, _, hfix⟩ := toDigitsCore_fixed b hb k (n + 1) n [] hn (Nat.lt_succ_self n) hk
  simp only [Nat.toDigits, hds, List.append_nil, padLeft]
  exact hfix

theorem hex4_field (i : Nat) (h : i < 65536) :
    padLeft 4 '0' (Nat.toDigits 16 i) = hex4 i := by
  rw [padLeft_toDigits 16 4 i (by omega) (by omega) (by omega)]
  simp only [fixedDigits, hex4, List.nil_append, List.cons_append, Nat.div_div_eq_div_mul]

theorem hex2_field (b : Nat) (h : b < 256) :
    padLeft 2 '0' (Nat.toDigits 16 b) = hex2 b := by
  rw [padLeft_toDigits 16 2 b (by omega) (by omega) (by omega)]
  simp only [fixedDigits, hex2, List.nil_append, List.cons_append]

theorem oct3_field (b : Nat) (h : b < 256) :
    padLeft 3 '0' (Nat.toDigits 8 b) = oct3 b := by
  rw [padLeft_toDigits 8 3 b (by omega) (by omega) (by omega)]
  simp only [fixedDigits, oct3, List.nil_append, List.cons_append, Nat.div_div_eq_div_mul]

theorem dec3_field (b : Nat) (h : b < 256) :
    padLeft 3 ' ' (Nat.toDigits 10 b) = dec3 b := by
  interval_cases b <;> rfl

theorem bin8_field (b : Nat) (h : b < 256) :
    padLeft 8 ' ' (bitset_to_string (bitset8 b)) = bin8 b := by
  interval_cases b <;> rfl

theorem char_field (b : Nat) :
    (if isprint b then Char.ofNat b else '.') = char_or_dot b := by
  simp only [isprint, char_or_dot, Bool.and_eq_true, decide_eq_true_eq]

/-! ## The stream steps of `my_prdump` -/

theorem padLeft_zero (c : Char) (text : List Char) : padLeft 0 c text = text := by
  simp [padLeft]

theorem prdump_header_eq (sp size : Nat) (title : String) (os : OStream) :
    prdump_header sp size title os
      = ⟨os.out ++ headerText sp size title os.fill os.width, '0', Radix.hex, 0⟩ := by
  simp only [prdump_header, headerText, put_char, put_str, put_uint, put_ptr, setw, setfill,
    dec, hex, endl, OStream.insert, padLeft_zero, Radix.value, List.append_assoc]

theorem prdump_byte_eq (offset ibyte : Nat) (os : OStream) (hw : os.width = 0)
    (ho : offset < 65536) (hb : ibyte < 256) :
    prdump_byte offset ibyte os = ⟨os.out ++ record_line offset ibyte, ' ', Radix.dec, 0⟩ := by
  have h16 : ibyte % 65536 = ibyte := Nat.mod_eq_of_lt (by omega)
  have hc : padLeft 1 ' ' [char_or_dot ibyte] = [char_or_dot ibyte] := by simp [padLeft]
  simp only [prdump_byte, put_char, put_str, put_uint, put_bitset, setw, setfill,
    dec, hex, oct, OStream.insert, padLeft_zero, Radix.value, hw, h16, hex4_field offset ho,
    hex2_field ibyte hb, dec3_field ibyte hb, oct3_field ibyte hb, bin8_field ibyte hb,
    char_field, hc, record_line, List.append_assoc]

theorem prdump_loop_eq : ∀ (s : List Nat) (k : Nat) (os : OStream), os.width = 0 →
    prdump_loop s (k % 65536) os
      = ⟨os.out ++ (linesFrom s k).flatten, if s = [] then os.fill else ' ',
          if s = [] then os.radix else Radix.dec, 0⟩ := by
  intro s
  induction s with
  | nil =>
    intro k os hw
    cases os
    simp_all [prdump_loop, linesFrom]
  | cons b rest ih =>
    intro k os hw
    have hk : (k % 65536 + 1) % 65536 = (k + 1) % 65536 := by omega
    have hb : b % 256 < 256 := Nat.mod_lt _ (by omega)
    have hk2 : k % 65536 < 65536 := Nat.mod_lt _ (by omega)
    simp only [prdump_loop, hk, prdump_byte_eq _ _ os hw hk2 hb]
    rw [ih (k + 1) _ rfl]
    by_cases hr : rest = [] <;> simp [hr, linesFrom]

/-! ## Lines -/

theorem splitLines_line (body rest : List Char) (h : ∀ c ∈ body, c ≠ '\n') :
    splitLines (body ++ '\n' :: rest) = (body ++ ['\n']) :: splitLines rest := by
  induction body with
  | nil => simp [splitLines]
  | cons c cs ih =>
    have hc : c ≠ '\n' := h c (List.mem_cons_self _ _)
    have hcs : ∀ d ∈ cs, d ≠ '\n' := fun d hd => h d (List.mem_cons_of_mem _ hd)
    have hrec := ih hcs
    show splitLines (c :: (cs ++ '\n' :: rest)) = _
    rw [splitLines, if_neg hc, hrec]
    rfl

theorem digitChar_ne_newline (n : Nat) (h : n < 16) : Nat.digitChar n ≠ '\n' := by
  interval_cases n <;> decide

theorem bitChar_ne_newline (b k : Nat) : bitChar b k ≠ '\n' := by
  unfold bitChar
  split_ifs <;> decide

theorem char_or_dot_ne_newline (b : Nat) : char_or_dot b ≠ '\n' := by
  unfold char_or_dot
  split_ifs with h
  · obtain ⟨h1, h2⟩ := h
    interval_cases b <;> decide
  · decide

theorem hex4_no_newline (i : Nat) : ∀ c ∈ hex4 i, c ≠ '\n' := by
  intro c hc
  simp only [hex4, List.mem_cons, List.mem_singleton, List.not_mem_nil, or_false] at hc
  rcases hc with h | h | h | h <;> subst h <;> exact digitChar_ne_newline _ (by omega)

theorem hex2_no_newline (b : Nat) : ∀ c ∈ hex2 b, c ≠ '\n' := by
  intro c hc
  simp only [hex2, List.mem_cons, List.mem_singleton, List.not_mem_nil, or_false] at hc
  rcases hc with h | h <;> subst h <;> exact digitChar_ne_newline _ (by omega)

theorem oct3_no_newline (b : Nat) : ∀ c ∈ oct3 b, c ≠ '\n' := by
  intro c hc
  simp only [oct3, List.mem_cons, List.mem_singleton, List.not_mem_nil, or_false] at hc
  rcases hc with h | h | h <;> subst h <;> exact digitChar_ne_newline _ (by omega)

theorem dec3_no_newline (b : Nat) : ∀ c ∈ dec3 b, c ≠ '\n' := by
  intro c hc
  unfold dec3 at hc
  split_ifs at hc <;>
    simp only [List.mem_cons, List.mem_singleton, List.not_mem_nil, or_false] at hc <;>
    rcases hc with h | h | h <;> subst h <;>
    first
      | decide
      | exact digitChar_ne_newline _ (by omega)

theorem bin8_no_newline (b : Nat) : ∀ c ∈ bin8 b, c ≠ '\n' := by
  intro c hc
  simp only [bin8, List.mem_cons, List.mem_singleton, List.not_mem_nil, or_false] at hc
  rcases hc with h | h | h | h | h | h | h | h <;> subst h <;> exact bitChar_ne_newline _ _

theorem record_line_body (i b : Nat) : record_line i b = record_body i b ++ ['\n'] := rfl

theorem record_body_no_newline (i b : Nat) : ∀ c ∈ record_body i b, c ≠ '\n' := by
  intro c hc
  simp only [record_body, List.mem_append, List.mem_singleton] at hc
  rcases hc with (((((((((((h | h) | h) | h) | h) | h) | h) | h) | h) | h) | h) | h)
  · exact (by decide : ∀ d ∈ "  ".toList, d ≠ '\n') c h
  · exact hex4_no_newline i c h
  · exact (by decide : ∀ d ∈ ": ".toList, d ≠ '\n') c h
  · exact hex2_no_newline b c h
  · exact (by decide : ∀ d ∈ "  - ".toList, d ≠ '\n') c h
  · exact dec3_no_newline b c h
  · exact (by decide : ∀ d ∈ " - ".toList, d ≠ '\n') c h
  · exact oct3_no_newline b c h
  · exact (by decide : ∀ d ∈ " - ".toList, d ≠ '\n') c h
  · exact bin8_no_newline b c h
  · exact (by decide : ∀ d ∈ " - ".toList, d ≠ '\n') c h
  · subst h; exact char_or_dot_ne_newline b

theorem splitLines_linesFrom : ∀ (s : List Nat) (k : Nat),
    splitLines (linesFrom s k).flatten = linesFrom s k := by
  intro s
  induction s with
  | nil => intro k; rfl
  | cons b rest ih =>
    intro k
    simp only [linesFrom, List.flatten_cons, record_line_body, List.append_assoc,
      List.singleton_append]
    rw [splitLines_line _ _ (record_body_no_newline _ _), ih]

theorem linesFrom_length : ∀ (s : List Nat) (k : Nat), (linesFrom s k).length = s.length := by
  intro s
  induction s with
  | nil => intro k; rfl
  | cons b rest ih => intro k; simp [linesFrom, ih]

theorem linesFrom_get : ∀ (s : List Nat) (k j b : Nat), s[j]? = some b →
    (linesFrom s k)[j]? = some (record_line ((k + j) % 65536) (b % 256)) := by
  intro s
  induction s with
  | nil => intro k j b h; simp at h
  | cons a rest ih =>
    intro k j b h
    cases j with
    | zero =>
      simp only [List.getElem?_cons_zero, Option.some.injEq] at h
      subst h
      simp [linesFrom]
    | succ j =>
      simp only [List.getElem?_cons_succ] at h
      simp only [linesFrom, List.getElem?_cons_succ]
      rw [ih (k + 1) j b h]
      congr 3
      omega

/-- The record lines of a call are the lines of the documented layout, the
offset taken modulo `2^16` and the byte as read. -/
theorem recordLines_eq (sp : Nat) (s : List Nat) (title : String) (os : OStream) :
    recordLines sp s title os = linesFrom s 0 := by
  have h := prdump_loop_eq s 0 (prdump_header sp s.length title os)
    (by rw [prdump_header_eq])
  simp only [Nat.zero_mod] at h
  simp only [recordLines, emitted, h, List.drop_left, splitLines_linesFrom]

/-- The state `my_prdump` leaves the stream in, and the text it adds. -/
theorem my_prdump_eq (sp : Nat) (s : List Nat) (title : String) (os : OStream) :
    my_prdump sp s title os
      = ⟨os.out ++ (headerText sp s.length title os.fill os.width
            ++ (linesFrom s 0).flatten ++ ['\n']),
          if s = [] then '0' else ' ', if s = [] then Radix.hex else Radix.dec, 0⟩ := by
  have h := prdump_loop_eq s 0 (prdump_header sp s.length title os)
    (by rw [prdump_header_eq])
  simp only [Nat.zero_mod] at h
  rw [my_prdump, h, prdump_header_eq]
  simp only [endl, List.append_assoc]

theorem dumpText_eq (sp : Nat) (s : List Nat) (title : String) (os : OStream) :
    dumpText sp s title os
      = headerText sp s.length title os.fill os.width ++ (linesFrom s 0).flatten ++ ['\n'] := by
  simp only [dumpText, emitted, my_prdump_eq, List.drop_left]

/-! ## Fields of a record line -/

theorem digitVal_digitChar (n : Nat) (h : n < 16) : digitVal (Nat.digitChar n) = n := by
  interval_cases n <;> rfl

theorem record_line_length (i b : Nat) : (record_line i b).length = 39 := by
  simp only [record_line, hex4, hex2, oct3, bin8, dec3]
  split_ifs <;> rfl

theorem offsetField_record_line (i b : Nat) : offsetField (record_line i b) = hex4 i := rfl

theorem hexField_record_line (i b : Nat) : hexField (record_line i b) = hex2 b := rfl

theorem binField_record_line (i b : Nat) : binField (record_line i b) = bin8 b := by
  simp only [record_line, hex4, hex2, oct3, bin8, dec3, binField]
  split_ifs <;> rfl

theorem charField_record_line (i b : Nat) :
    charField (record_line i b) = some (char_or_dot b) := by
  simp only [record_line, hex4, hex2, oct3, bin8, dec3, charField]
  split_ifs <;> rfl

theorem readNat_hex4 (i : Nat) (h : i < 65536) : readNat 16 (hex4 i) = i := by
  simp only [readNat, hex4, List.foldl_cons, List.foldl_nil]
  rw [digitVal_digitChar _ (Nat.mod_lt _ (by omega)),
    digitVal_digitChar _ (Nat.mod_lt _ (by omega)),
    digitVal_digitChar _ (Nat.mod_lt _ (by omega)),
    digitVal_digitChar _ (Nat.mod_lt _ (by omega))]
  omega

theorem readNat_hex2 (b : Nat) (h : b < 256) : readNat 16 (hex2 b) = b := by
  simp only [readNat, hex2, List.foldl_cons, List.foldl_nil]
  rw [digitVal_digitChar _ (Nat.mod_lt _ (by omega)),
    digitVal_digitChar _ (Nat.mod_lt _ (by omega))]
  omega

theorem lineOffset_record_line (i b : Nat) (h : i < 65536) :
    lineOffset (record_line i b) = i := by
  rw [lineOffset, offsetField_record_line, readNat_hex4 i h]

/-- The record line at position `k` of a call, for the byte `b` stored there. -/
theorem recordLines_get (sp : Nat) (s : List Nat) (title : String) (os : OStream)
    (k b : Nat) (h : s[k]? = some b) :
    (recordLines sp s title os)[k]? = some (record_line (k % 65536) (b % 256)) := by
  rw [recordLines_eq, linesFrom_get s 0 k b h, Nat.zero_add]

theorem digitChar_lowercase (n : Nat) (h : n < 16) :
    Nat.digitChar n ∈ "0123456789abcdef".toList := by
  interval_cases n <;> decide

theorem le_bytes_four (v : Nat) :
    le_bytes 4 v = [v &&& 0xFF, (v >>> 8) &&& 0xFF, (v >>> 16) &&& 0xFF, (v >>> 24) &&& 0xFF] := by
  have hand : ∀ x, x &&& 0xFF = x % 256 := fun x => Nat.and_pow_two_sub_one_eq_mod x 8
  simp only [le_bytes, hand, Nat.shiftRight_eq_div_pow, Nat.div_div_eq_div_mul]

/-! ## The claims -/

/-- C1, as the code has it: for every value of byte width `n`, `my_prdump`
writes exactly `n` record lines, and the offset shown on line `k` (counted from
0) is `k` modulo `2^16`, the counter being a `uint16_t` printed in four hex
digits; up to `n = 65536` the offsets are therefore `0..n-1` in ascending
contiguous order. -/
theorem C1_record_count_and_offsets (sp : Nat) (s : List Nat) (title : String)
    (os : OStream) :
    (recordLines sp s title os).length = s.length ∧
    ∀ k, k < s.length →
      ∃ l, (recordLines sp s title os)[k]? = some l ∧
        offsetField l = hex4 (k % 65536) ∧
        lineOffset l = k % 65536 ∧
        (s.length ≤ 65536 → lineOffset l = k) := by
  refine ⟨by rw [recordLines_eq, linesFrom_length], ?_⟩
  intro k hk
  have hget : s[k]? = some s[k] := List.getElem?_eq_getElem hk
  have hmod : k % 65536 < 65536 := Nat.mod_lt _ (by omega)
  refine ⟨_, recordLines_get sp s title os k _ hget, offsetField_record_line _ _,
    lineOffset_record_line _ _ hmod, ?_⟩
  intro hlen
  rw [lineOffset_record_line _ _ hmod]
  exact Nat.mod_eq_of_lt (by omega)

/-- C1, witness: a value of three bytes has three record lines, and the line at
position 2 shows offset 2. -/
theorem C1_record_count_and_offsets_witness :
    (recordLines 0x1000 [7, 8, 9] "v" cout0).length = 3 ∧
    ∃ l, (recordLines 0x1000 [7, 8, 9] "v" cout0)[2]? = some l ∧
      offsetField l = hex4 (2 % 65536) ∧ lineOffset l = 2 % 65536 ∧
      ([7, 8, 9].length ≤ 65536 → lineOffset l = 2) :=
  ⟨(C1_record_count_and_offsets 0x1000 [7, 8, 9] "v" cout0).1,
   (C1_record_count_and_offsets 0x1000 [7, 8, 9] "v" cout0).2 2 (by decide)⟩

/-- C1, counterexample to the claim as stated (offset `k` on line `k` for every
byte width): in the dump of a value of 65537 zero bytes, the record line at
position 65536 shows offset `0000`, not 65536. -/
theorem C1_offset_wraps_at_65536 :
    (recordLines 0x1000 (List.replicate 65537 0) "big" cout0)[65536]?
        = some "  0000: 00  -   0 - 000 - 00000000 - .\n".toList ∧
    ((recordLines 0x1000 (List.replicate 65537 0) "big" cout0)[65536]?).map lineOffset
        ≠ some 65536 := by
  have hget : (List.replicate 65537 0)[65536]? = some 0 := by
    rw [List.getElem?_replicate]
    simp
  have hline := recordLines_get 0x1000 (List.replicate 65537 0) "big" cout0 65536 0 hget
  have hrec : record_line (65536 % 65536) (0 % 256)
      = "  0000: 00  -   0 - 000 - 00000000 - .\n".toList := by decide
  rw [hline, hrec]
  refine ⟨rfl, ?_⟩
  decide

/-- C2: for a value of at most 65536 bytes, each a byte value in 0..255, the
record line `my_prdump` writes for byte `b` at offset `k` is exactly two spaces,
`k` in 4 zero-padded hex digits, `": "`, `b` in 2 zero-padded hex digits,
`"  - "`, `b` in decimal right-aligned in 3 columns, `" - "`, `b` in 3
zero-padded octal digits, `" - "`, the 8 binary digits of `b`, `" - "`, the
display character and a newline; every record line is 39 characters long; the
bytes 65 and 0 give the two lines of the examples. -/
theorem C2_record_line_layout (sp : Nat) (s : List Nat) (title : String) (os : OStream)
    (hlen : s.length ≤ 65536) (hbytes : ∀ b ∈ s, b < 256) :
    (∀ k b, s[k]? = some b →
      (recordLines sp s title os)[k]? = some
        ("  ".toList ++ hex4 k ++ ": ".toList ++ hex2 b ++ "  - ".toList ++ dec3 b
          ++ " - ".toList ++ oct3 b ++ " - ".toList ++ bin8 b ++ " - ".toList
          ++ [char_or_dot b] ++ ['\n'])) ∧
    (∀ l ∈ recordLines sp s title os, l.length = 39) ∧
    recordLines sp [65] title os = ["  0000: 41  -  65 - 101 - 01000001 - A\n".toList] ∧
    recordLines sp [0] title os = ["  0000: 00  -   0 - 000 - 00000000 - .\n".toList] := by
  refine ⟨?_, ?_, ?_, ?_⟩
  · intro k b hk
    have hmem : b ∈ s := List.getElem?_mem hk
    have hklt : k < s.length := by
      rcases Nat.lt_or_ge k s.length with h | h
      · exact h
      · rw [List.getElem?_eq_none h] at hk
        cases hk
    rw [recordLines_get sp s title os k b hk, Nat.mod_eq_of_lt (by omega : k < 65536),
      Nat.mod_eq_of_lt (hbytes b hmem)]
    rfl
  · intro l hl
    obtain ⟨k, hk, rfl⟩ := List.getElem_of_mem hl
    have hk2 : k < s.length := by
      rw [recordLines_eq, linesFrom_length] at hk
      exact hk
    have h1 := recordLines_get sp s title os k s[k] (List.getElem?_eq_getElem hk2)
    rw [List.getElem?_eq_getElem hk] at h1
    rw [Option.some.inj h1]
    exact record_line_length _ _
  · rw [recordLines_eq]
    decide
  · rw [recordLines_eq]
    decide

/-- C2, witness: in the dump of the two bytes 65 and 0, the record line at
offset 1 is the documented line for the byte 0. -/
theorem C2_record_line_layout_witness :
    (recordLines 0x1000 [65, 0] "v" cout0)[1]?
      = some "  0001: 00  -   0 - 000 - 00000000 - .\n".toList :=
  (C2_record_line_layout 0x1000 [65, 0] "v" cout0 (by decide) (by decide)).1 1 0 rfl

/-- C3, the code at the failing input: called as `E_sample` calls it, with the
stream zero-filled, `my_prdump` pads the decimal size with zeros, not with
spaces: the header line of a 4-byte value reads `Size: 000004 [00000004]`.
The same call on a fresh stream gives the documented `Size:      4 [00000004]`. -/
theorem C3_header_size_zero_filled :
    (splitLines (dumpText 0x7ffc10 [100, 0, 0, 0] "Enumeration 'e.first'" cout_hex0))[1]?
      = some "Enumeration 'e.first' - Size: 000004 [00000004]\n".toList ∧
    (splitLines (dumpText 0x7ffc10 [100, 0, 0, 0] "Enumeration 'e.first'" cout0))[1]?
      = some "Enumeration 'e.first' - Size:      4 [00000004]\n".toList := by
  decide

set_option maxRecDepth 20000 in
/-- C4, the code at the failing input: called twice in a row as `U_sample`
calls it, `my_prdump` writes the header line `Size: 000008 [00000008]` the
first time and `Size:      8 [00000008]` the second time, so the two texts
differ outside the address line. -/
theorem C4_second_dump_differs :
    (splitLines (dumpText 0x7ffc10 u_bytes "Union 'U'" cout_hex0))[1]?
      = some "Union 'U' - Size: 000008 [00000008]\n".toList ∧
    (splitLines (dumpText 0x7ffc10 u_bytes "Union 'U'"
        (my_prdump 0x7ffc10 u_bytes "Union 'U'" cout_hex0)))[1]?
      = some "Union 'U' - Size:      8 [00000008]\n".toList ∧
    dumpText 0x7ffc10 u_bytes "Union 'U'" cout_hex0
      ≠ dumpText 0x7ffc10 u_bytes "Union 'U'"
          (my_prdump 0x7ffc10 u_bytes "Union 'U'" cout_hex0) := by
  have h1 : (splitLines (dumpText 0x7ffc10 u_bytes "Union 'U'" cout_hex0))[1]?
      = some "Union 'U' - Size: 000008 [00000008]\n".toList := by decide
  have h2 : (splitLines (dumpText 0x7ffc10 u_bytes "Union 'U'"
        (my_prdump 0x7ffc10 u_bytes "Union 'U'" cout_hex0)))[1]?
      = some "Union 'U' - Size:      8 [00000008]\n".toList := by decide
  refine ⟨h1, h2, fun h => ?_⟩
  rw [h, h2] at h1
  revert h1
  decide

/-- C5: for every byte value `b` in 0..255, at every position of every value,
the display character on the record line of `b` is the character with code `b`
if and only if `0x20 ≤ b ≤ 0x7E`, and it is `'.'` for every other `b`. -/
theorem C5_display_char (sp : Nat) (s : List Nat) (title : String) (os : OStream)
    (k b : Nat) (hk : s[k]? = some b) (hb : b < 256) :
    ∃ l c, (recordLines sp s title os)[k]? = some l ∧ charField l = some c ∧
      (c = Char.ofNat b ↔ 0x20 ≤ b ∧ b ≤ 0x7E) ∧
      (¬ (0x20 ≤ b ∧ b ≤ 0x7E) → c = '.') := by
  refine ⟨_, char_or_dot b, recordLines_get sp s title os k b hk, ?_, ?_, ?_⟩
  · rw [Nat.mod_eq_of_lt hb, charField_record_line]
  · unfold char_or_dot
    constructor
    · intro h
      by_contra hr
      rw [if_neg hr] at h
      have hcases : b < 0x20 ∨ 0x7E < b := by omega
      rcases hcases with h1 | h1
      · interval_cases b <;> revert h <;> decide
      · interval_cases b <;> revert h <;> decide
    · intro h
      rw [if_pos h]
  · intro h
    unfold char_or_dot
    rw [if_neg h]

/-- C5, witness: the byte 65 shows as `A`, its own character. -/
theorem C5_display_char_witness :
    ∃ l c, (recordLines 0x1000 [65, 7] "v" cout0)[0]? = some l ∧ charField l = some c ∧
      (c = Char.ofNat 65 ↔ 0x20 ≤ 65 ∧ 65 ≤ 0x7E) ∧
      (¬ (0x20 ≤ 65 ∧ 65 ≤ 0x7E) → c = '.') :=
  C5_display_char 0x1000 [65, 7] "v" cout0 0 65 rfl (by decide)

/-- C6: for every byte value `b` in 0..255, the binary field of its record
line has exactly 8 characters, each `'0'` or `'1'`, the character at position
`j` being the bit of weight `2^(7-j)` (most significant first), and read as a
base-2 numeral the field gives `b` back. -/
theorem C6_binary_field (sp : Nat) (s : List Nat) (title : String) (os : OStream)
    (k b : Nat) (hk : s[k]? = some b) (hb : b < 256) :
    ∃ l, (recordLines sp s title os)[k]? = some l ∧
      (binField l).length = 8 ∧
      (∀ c ∈ binField l, c = '0' ∨ c = '1') ∧
      (∀ j, j < 8 → (binField l)[j]? = some (if b / 2 ^ (7 - j) % 2 = 1 then '1' else '0')) ∧
      readNat 2 (binField l) = b := by
  refine ⟨_, recordLines_get sp s title os k b hk, ?_, ?_, ?_, ?_⟩
  · rw [binField_record_line]
    rfl
  · rw [binField_record_line]
    intro c hc
    simp only [bin8, List.mem_cons, List.mem_singleton, List.not_mem_nil, or_false] at hc
    rcases hc with h | h | h | h | h | h | h | h <;> subst h <;> unfold bitChar <;>
      split_ifs <;> simp
  · intro j hj
    rw [binField_record_line, Nat.mod_eq_of_lt hb]
    interval_cases j <;> rfl
  · rw [binField_record_line, Nat.mod_eq_of_lt hb]
    interval_cases b <;> rfl

/-- C6, witness: the byte 65 shows as `01000001`. -/
theorem C6_binary_field_witness :
    ∃ l, (recordLines 0x1000 [65] "v" cout0)[0]? = some l ∧
      (binField l).length = 8 ∧
      (∀ c ∈ binField l, c = '0' ∨ c = '1') ∧
      (∀ j, j < 8 → (binField l)[j]? = some (if 65 / 2 ^ (7 - j) % 2 = 1 then '1' else '0')) ∧
      readNat 2 (binField l) = 65 :=
  C6_binary_field 0x1000 [65] "v" cout0 0 65 rfl (by decide)

/-- C7: for every byte value `b` in 0..255, the hex field of its record line is
exactly 2 characters, the lowercase hexadecimal digits of `b / 16` and `b % 16`
(the expansion of `b`, zero-padded on the left), and read back as a base-16
numeral it gives `b`. -/
theorem C7_hex_field (sp : Nat) (s : List Nat) (title : String) (os : OStream)
    (k b : Nat) (hk : s[k]? = some b) (hb : b < 256) :
    ∃ l, (recordLines sp s title os)[k]? = some l ∧
      hexField l = [Nat.digitChar (b / 16), Nat.digitChar (b % 16)] ∧
      (hexField l).length = 2 ∧
      (∀ c ∈ hexField l, c ∈ "0123456789abcdef".toList) ∧
      readNat 16 (hexField l) = b := by
  have h16 : b / 16 % 16 = b / 16 := by omega
  refine ⟨_, recordLines_get sp s title os k b hk, ?_, ?_, ?_, ?_⟩
  · rw [hexField_record_line, Nat.mod_eq_of_lt hb, hex2, h16]
  · rw [hexField_record_line]
    rfl
  · rw [hexField_record_line]
    intro c hc
    simp only [hex2, List.mem_cons, List.mem_singleton, List.not_mem_nil, or_false] at hc
    rcases hc with h | h <;> subst h <;> exact digitChar_lowercase _ (Nat.mod_lt _ (by omega))
  · rw [hexField_record_line, Nat.mod_eq_of_lt hb, readNat_hex2 b hb]

/-- C7, witness: the byte 255 shows as `ff`. -/
theorem C7_hex_field_witness :
    ∃ l, (recordLines 0x1000 [0, 255] "v" cout0)[1]? = some l ∧
      hexField l = [Nat.digitChar (255 / 16), Nat.digitChar (255 % 16)] ∧
      (hexField l).length = 2 ∧
      (∀ c ∈ hexField l, c ∈ "0123456789abcdef".toList) ∧
      readNat 16 (hexField l) = 255 :=
  C7_hex_field 0x1000 [0, 255] "v" cout0 1 255 rfl (by decide)

/-- C8, as the code has it: `my_prdump` has no rejection path and signals
nothing.  On a zero-length byte view it still writes the blank line, the title
line with size 0, the address line, the column titles and the closing blank
line, and no record line. -/
theorem C8_zero_width_dump (sp : Nat) (title : String) (os : OStream) :
    dumpText sp [] title os
      = padLeft os.width os.fill ['\n'] ++ title.toList ++ " - Size: ".toList
          ++ padLeft 6 os.fill ['0'] ++ " [00000000]\n".toList
          ++ "Dump address: ".toList
          ++ (if sp = 0 then ['0'] else '0' :: 'x' :: Nat.toDigits 16 sp)
          ++ "\nOffset: Hex - Dec - Oct - Bin      - Char\n\n".toList ∧
    recordLines sp [] title os = [] ∧
    dumpText sp [] title os ≠ [] := by
  have htext : dumpText sp [] title os
      = padLeft os.width os.fill ['\n'] ++ title.toList ++ " - Size: ".toList
          ++ padLeft 6 os.fill ['0'] ++ " [00000000]\n".toList
          ++ "Dump address: ".toList
          ++ (if sp = 0 then ['0'] else '0' :: 'x' :: Nat.toDigits 16 sp)
          ++ "\nOffset: Hex - Dec - Oct - Bin      - Char\n\n".toList := by
    rw [dumpText_eq]
    simp only [headerText, linesFrom, List.flatten_nil, List.length_nil, List.append_nil,
      List.append_assoc]
    rfl
  refine ⟨htext, by rw [recordLines_eq]; rfl, ?_⟩
  rw [htext]
  simp

/-- C8, counterexample to the claim as stated (nothing written, failure
signalled): the dump of a zero-length byte view on a fresh stream writes five
lines of text. -/
theorem C8_zero_width_not_rejected :
    dumpText 0x1000 [] "empty" cout0
      = ("\nempty - Size:      0 [00000000]\nDump address: 0x1000\n"
          ++ "Offset: Hex - Dec - Oct - Bin      - Char\n\n").toList ∧
    dumpText 0x1000 [] "empty" cout0 ≠ [] := by
  decide

/-- C9: for every unsigned integer `v` held in 4 bytes in little-endian order,
`my_prdump` writes 4 record lines, and the line at offset `k` (`k = 0..3`) is
the record line of the byte `(v >> 8k) & 0xFF`, showing offset `k` and that
byte; for `v = 0x01020304` the bytes shown at offsets 0, 1, 2, 3 are `0x04`,
`0x03`, `0x02`, `0x01`. -/
theorem C9_little_endian_uint32 (sp : Nat) (title : String) (os : OStream) (v : Nat) :
    recordLines sp (le_bytes 4 v) title os
      = [record_line 0 (v &&& 0xFF), record_line 1 ((v >>> 8) &&& 0xFF),
         record_line 2 ((v >>> 16) &&& 0xFF), record_line 3 ((v >>> 24) &&& 0xFF)] ∧
    (recordLines sp (le_bytes 4 v) title os).map
        (fun l => (lineOffset l, readNat 16 (hexField l)))
      = [(0, v &&& 0xFF), (1, (v >>> 8) &&& 0xFF),
         (2, (v >>> 16) &&& 0xFF), (3, (v >>> 24) &&& 0xFF)] ∧
    (recordLines sp (le_bytes 4 0x01020304) title os).map
        (fun l => (lineOffset l, readNat 16 (hexField l)))
      = [(0, 0x04), (1, 0x03), (2, 0x02), (3, 0x01)] := by
  have hand : ∀ x, x &&& 0xFF = x % 256 := fun x => Nat.and_pow_two_sub_one_eq_mod x 8
  have hlt : ∀ x, x % 256 < 256 := fun x => Nat.mod_lt _ (by omega)
  have hlines : ∀ w, recordLines sp (le_bytes 4 w) title os
      = [record_line 0 (w &&& 0xFF), record_line 1 ((w >>> 8) &&& 0xFF),
         record_line 2 ((w >>> 16) &&& 0xFF), record_line 3 ((w >>> 24) &&& 0xFF)] := by
    intro w
    rw [recordLines_eq, le_bytes_four]
    simp only [linesFrom, hand, Nat.mod_mod]
  have hread : ∀ w, (recordLines sp (le_bytes 4 w) title os).map
        (fun l => (lineOffset l, readNat 16 (hexField l)))
      = [(0, w &&& 0xFF), (1, (w >>> 8) &&& 0xFF),
         (2, (w >>> 16) &&& 0xFF), (3, (w >>> 24) &&& 0xFF)] := by
    intro w
    rw [hlines w]
    simp only [List.map_cons, List.map_nil, hand, hexField_record_line,
      readNat_hex2 _ (hlt _), lineOffset_record_line _ _ (by omega : 0 < 65536),
      lineOffset_record_line _ _ (by omega : 1 < 65536),
      lineOffset_record_line _ _ (by omega : 2 < 65536),
      lineOffset_record_line _ _ (by omega : 3 < 65536)]
  refine ⟨hlines v, hread v, ?_⟩
  rw [hread]
  decide

/-- C10: for every value of at least one byte and every formatting state on
entry, `my_prdump` leaves the stream with fill `' '`, decimal base and width 0;
and the text of a `my_prdump` call that comes right after it is the same
whatever state the stream was in before the first call. -/
theorem C10_exit_state (sp : Nat) (s : List Nat) (title : String) (os : OStream)
    (hs : s ≠ []) :
    (my_prdump sp s title os).fill = ' ' ∧
    (my_prdump sp s title os).radix = Radix.dec ∧
    (my_prdump sp s title os).width = 0 ∧
    ∀ (os2 : OStream) (sp2 : Nat) (s2 : List Nat) (title2 : String),
      dumpText sp2 s2 title2 (my_prdump sp s title os)
        = dumpText sp2 s2 title2 (my_prdump sp s title os2) := by
  refine ⟨?_, ?_, ?_, ?_⟩
  · rw [my_prdump_eq]; simp [hs]
  · rw [my_prdump_eq]; simp [hs]
  · rw [my_prdump_eq]
  · intro os2 sp2 s2 title2
    rw [dumpText_eq, dumpText_eq, my_prdump_eq, my_prdump_eq]

/-- C10, witness: after the dump of one byte on a stream left zero-filled and
hexadecimal, the stream is space-filled, decimal and without pending width. -/
theorem C10_exit_state_witness :
    (my_prdump 0x1000 [65] "v" cout_hex0).fill = ' ' ∧
    (my_prdump 0x1000 [65] "v" cout_hex0).radix = Radix.dec ∧
    (my_prdump 0x1000 [65] "v" cout_hex0).width = 0 ∧
    ∀ (os2 : OStream) (sp2 : Nat) (s2 : List Nat) (title2 : String),
      dumpText sp2 s2 title2 (my_prdump 0x1000 [65] "v" cout_hex0)
        = dumpText sp2 s2 title2 (my_prdump 0x1000 [65] "v" os2) :=
  C10_exit_state 0x1000 [65] "v" cout_hex0 (by decide)

/-! ## Beyond the claims -/

/-- Where repetition does hold: entered with fill `' '` and no pending width,
two calls of `my_prdump` in a row on the same value of at least one byte write
the same text. -/
theorem my_prdump_repeat_space_filled (sp : Nat) (s : List Nat) (title : String)
    (os : OStream) (hfill : os.fill = ' ') (hwidth : os.width = 0) (hs : s ≠ []) :
    dumpText sp s title (my_prdump sp s title os) = dumpText sp s title os := by
  rw [dumpText_eq, dumpText_eq, my_prdump_eq]
  simp [hs, hfill, hwidth]

/-- The repetition property at the bytes of the union of `U_sample`, on a
fresh stream. -/
theorem my_prdump_repeat_space_filled_witness :
    dumpText 0x7ffc10 u_bytes "u" (my_prdump 0x7ffc10 u_bytes "u" cout0)
      = dumpText 0x7ffc10 u_bytes "u" cout0 :=
  my_prdump_repeat_space_filled 0x7ffc10 u_bytes "u" cout0 rfl rfl (by decide)

end Dump
